import Mathlib

/-!
Verification of the search-tool pipeline (src/st.ts).

The TypeScript source is shallow-embedded here.  JavaScript numbers are
modelled as exact rationals; the two uses of the transcendental Math.exp
inside the pipeline (BM25 score normalisation and logprob-to-confidence
conversion) are modelled by an arbitrary function parameter E so that the
pipeline theorems hold for every possible exponential; the monotonicity
claim about the BM25 normaliser itself is proved over the reals with the
genuine Real.exp.  Network calls (Ollama generate and embed endpoints,
SQLite FTS and vector queries) are modelled as oracle parameters; their
failure modes are explicit constructors.  JavaScript Map objects are
modelled as association lists in insertion order, with in-place update of
the first matching key, exactly the observable iteration behaviour of Map.
-/

namespace ST

/-- Rows returned by the search backends (type SearchResult in st.ts). -/
structure SearchResult where
  id : Nat
  name : String
  path : String
  content : String
  score : Rat
deriving DecidableEq, Repr, Inhabited

/-- Entries of the fusion map built by rrfFusion: representative document
plus accumulated RRF score. -/
structure FusionEntry where
  doc : SearchResult
  score : Rat
deriving DecidableEq, Repr, Inhabited

/-- Lookup in an association list modelling a JavaScript Map keyed by id
(Map.get).  Returns the value at the first matching key. -/
def mapLookup {α : Type} (m : List (Nat × α)) (id : Nat) : Option α :=
  (m.find? (fun p => p.1 == id)).map (fun p => p.2)

/-- Map.set: update the first occurrence of the key in place, otherwise
append at the end (JavaScript Map preserves insertion order). -/
def mapSet {α : Type} (m : List (Nat × α)) (id : Nat) (v : α) : List (Nat × α) :=
  match m with
  | [] => [(id, v)]
  | p :: rest => if p.1 = id then (id, v) :: rest else p :: mapSet rest id v

/-- The RRF smoothing constant of st.ts (RRF_K = 60). -/
def RRF_K : Nat := 60

/-- One iteration of the inner loop of rrfFusion in st.ts: add the RRF
contribution of one document at 0-based rank into the accumulator map,
creating the entry (with the first-seen document as representative) when
the id is new. -/
def rrfInsert (acc : List (Nat × FusionEntry)) (doc : SearchResult) (s : Rat) :
    List (Nat × FusionEntry) :=
  match acc with
  | [] => [(doc.id, ⟨doc, s⟩)]
  | (k, e) :: rest =>
    if k = doc.id then (k, ⟨e.doc, e.score + s⟩) :: rest
    else (k, e) :: rrfInsert rest doc s

/-- The inner loop of rrfFusion over one result set: rank is the 0-based
index, the contribution is weight / (rank + 1 + RRF_K). -/
def rrfInsertSet (acc : List (Nat × FusionEntry)) (weight : Rat) :
    List SearchResult → Nat → List (Nat × FusionEntry)
  | [], _ => acc
  | d :: ds, rank => rrfInsertSet (rrfInsert acc d (weight / (rank + 1 + (RRF_K : Rat)))) weight ds (rank + 1)

/-- Function rrfFusion of st.ts: fold every (results, weight) pair into the
score map. -/
def rrfFusion (resultSets : List (List SearchResult × Rat)) : List (Nat × FusionEntry) :=
  resultSets.foldl (fun acc p => rrfInsertSet acc p.2 p.1 0) []

/-- Accumulated fused score of a candidate id (0 when the id is absent from
the fusion map). -/
def fusedScore (m : List (Nat × FusionEntry)) (id : Nat) : Rat :=
  ((mapLookup m id).map (fun e => e.score)).getD 0

/-- Total RRF contribution of one result set of weight w to candidate id,
starting at 0-based rank `rank`: the document at 0-based index i
contributes w / (i + 1 + 60) when its id matches. -/
def setContribution (w : Rat) (results : List SearchResult) (id : Nat) (rank : Nat) : Rat :=
  match results with
  | [] => 0
  | d :: ds =>
    (if d.id = id then w / ((rank : Rat) + 1 + (RRF_K : Rat)) else 0)
      + setContribution w ds id (rank + 1)

/-- The document at 0-based index i of a result set, with an inhabited
default (ranks are in range in every use below). -/
def docAt (results : List SearchResult) (i : Nat) : SearchResult :=
  results.getD i default

/-- Bare document record used in concrete test inputs. -/
def mkDoc (i : Nat) : SearchResult := ⟨i, "", "", "", 0⟩

/-- Concrete fusion input: candidate 7 sits at 1-based rank 2 of a weight-2
set and at 1-based rank 5 of a weight-1 set. -/
def rrfExampleSets : List (List SearchResult × Rat) :=
  [([mkDoc 1, mkDoc 7], 2), ([mkDoc 2, mkDoc 3, mkDoc 4, mkDoc 5, mkDoc 7], 1)]

/-! ### JavaScript string primitives, modelled on the character list so that
every definition evaluates inside the kernel -/

/-- JavaScript String.prototype.trim: drop whitespace from both ends. -/
def jsTrim (s : String) : String :=
  String.mk (((s.data.dropWhile Char.isWhitespace).reverse.dropWhile Char.isWhitespace).reverse)

/-- JavaScript String.prototype.length (code points; identical to UTF-16
units for the basic plane inputs the tool handles). -/
def jsLength (s : String) : Nat := s.data.length

/-- Splitting a character list at every separator position, keeping empty
pieces, as JavaScript String.prototype.split with a single-character
separator does. -/
def splitWhen (p : Char → Bool) : List Char → List (List Char)
  | [] => [[]]
  | c :: cs =>
    if p c then [] :: splitWhen p cs
    else
      match splitWhen p cs with
      | [] => [[c]]
      | piece :: rest => (c :: piece) :: rest

/-- JavaScript split on the newline separator. -/
def jsSplitLines (s : String) : List String :=
  (splitWhen (fun c => c = '\n') s.data).map String.mk

/-- JavaScript split on whitespace.  The source splits on whitespace runs;
this splits at each whitespace character, and the two agree after the
length filter that always follows in the source, since runs only add empty
pieces. -/
def jsSplitWs (s : String) : List String :=
  (splitWhen (fun c => c.isWhitespace) s.data).map String.mk

/-- JavaScript Array.prototype.join with a separator string. -/
def joinSep (sep : String) : List String → String
  | [] => ""
  | [p] => p
  | p :: q :: rest => p ++ sep ++ joinSep sep (q :: rest)

/-! ### QueryExpander (function expandQuery of st.ts) -/

/-- Outcome of the generate call of expandQuery: the fetch or JSON parse
threw, the HTTP status was not ok, or a body was produced.  A missing
response field is modelled as the empty string (both are falsy in the
source check `if (!response)`). -/
inductive ExpandOutcome where
  | thrown
  | badStatus
  | ok (response : String)
deriving DecidableEq, Repr

/-- Characters stripped from the start of an expansion line by the source
regular expression class of digits, dot, hyphen, star and closing paren. -/
def isMarkerChar (c : Char) : Bool :=
  c.isDigit || c = '.' || c = '-' || c = '*' || c = ')'

/-- Per line cleanup of expandQuery: remove the leading run of numbering or
bullet characters, then trim surrounding whitespace (the greedy leading
match of the source regex followed by trim coincides with dropWhile
followed by trim). -/
def cleanExpansionLine (l : String) : String :=
  jsTrim (String.mk (l.data.dropWhile isMarkerChar))

/-- Parsing of the model response in expandQuery: split into lines, clean
each, drop empties, keep at most 3. -/
def parseExpansion (response : String) : List String :=
  (((jsSplitLines response).map cleanExpansionLine).filter (fun l => jsLength l > 0)).take 3

/-- Function expandQuery of st.ts with the network call abstracted into its
outcome. -/
def expandQuery (o : ExpandOutcome) (query : String) : List String :=
  match o with
  | .thrown => [query]
  | .badStatus => [query]
  | .ok response => if response = "" then [query] else query :: parseExpansion response

/-! ### LexicalRetriever (functions buildSearchQuery, normalizeBM25 and searchBM25 of st.ts) -/

/-- FTS5 escaping of buildSearchQuery: every double quote is doubled. -/
def escapeQuotes (s : String) : String :=
  String.mk (s.data.foldr (fun c acc => if c = '"' then '"' :: '"' :: acc else c :: acc) [])

/-- Function buildSearchQuery of st.ts.  Whitespace splitting may produce
empty segments, exactly as the source regular expression split does not on
an already trimmed string; they are removed by the same length filter. -/
def buildSearchQuery (query : String) : Option String :=
  let trimmed := jsTrim query
  if jsLength trimmed < 2 then none
  else
    let escaped := escapeQuotes trimmed
    let terms := (jsSplitWs escaped).filter (fun t => jsLength t > 1)
    match terms with
    | [] => none
    | [t] => some t
    | _ :: _ :: _ =>
      some (joinSep " OR "
        ["\"" ++ escaped ++ "\"",
         "(" ++ joinSep " NEAR " terms ++ ")",
         joinSep " OR " terms])

/-- Function normalizeBM25 of st.ts with Math.exp abstracted as E, used
inside the pipeline where the claims never depend on the value of the
exponential. -/
def normalizeBM25 (E : Rat → Rat) (score : Rat) : Rat :=
  1 / (1 + E (-(|score| - 5) / 3))

/-- Function searchBM25 of st.ts.  The FTS engine is the oracle db; a
query-syntax failure is the error branch of Except, mirroring the try and
catch of the source. -/
def searchBM25 (E : Rat → Rat) (db : String → Nat → Except Unit (List SearchResult))
    (query : String) (limit : Nat) : List SearchResult :=
  match buildSearchQuery query with
  | none => []
  | some ftsQuery =>
    match db ftsQuery limit with
    | .error _ => []
    | .ok results =>
      if results.isEmpty then []
      else results.map (fun r => { r with score := normalizeBM25 E r.score })

/-- The BM25 normalisation formula of st.ts over the real numbers with the
genuine exponential, for the analytic claim about it. -/
noncomputable def normalizeBM25R (score : Real) : Real :=
  1 / (1 + Real.exp (-(|score| - 5) / 3))

/-! ### Reranker score extraction (functions logprobToConfidence and
computeRerankScore of st.ts) -/

/-- Token and log probability pair of the generate response (type LogProb
of st.ts). -/
structure LogProb where
  token : String
  logprob : Rat
deriving DecidableEq, Repr, Inhabited

/-- JavaScript String.prototype.toLowerCase, modelled as per character
lowering (the tokens judged here are plain ASCII). -/
def strLower (s : String) : String := String.mk (s.data.map Char.toLower)

/-- Whether the pattern starts the list. -/
def startsWithList : List Char → List Char → Bool
  | [], _ => true
  | _ :: _, [] => false
  | a :: as, b :: bs => a == b && startsWithList as bs

/-- Whether the pattern occurs contiguously anywhere in the list. -/
def containsList (pat : List Char) : List Char → Bool
  | [] => pat.isEmpty
  | c :: rest => startsWithList pat (c :: rest) || containsList pat rest

/-- JavaScript String.prototype.includes. -/
def containsSub (s pat : String) : Bool := containsList pat.data s.data

/-- Function logprobToConfidence of st.ts: exp then clamp to the unit
interval, with Math.exp abstracted as E. -/
def logprobToConfidence (E : Rat → Rat) (logprob : Rat) : Rat :=
  min 1 (max 0 (E logprob))

/-- The scanning loop of computeRerankScore: the 0-based index and logprob
of the first token whose lowercased text includes the label. -/
def findLabel (lab : String) : List LogProb → Option (Nat × Rat)
  | [] => none
  | lp :: rest =>
    if containsSub (strLower lp.token) lab then some (0, lp.logprob)
    else (findLabel lab rest).map (fun p => (p.1 + 1, p.2))

/-- Function computeRerankScore of st.ts.  The source computes yesIdx and
noIdx with a -1 absent sentinel and then branches on isYes and isNo; the
match below enumerates exactly those branches (both labels first found at
the same token index make both flags false, landing in the neutral
branch). -/
def computeRerankScore (E : Rat → Rat) (logprobs : List LogProb) : Rat :=
  match findLabel "yes" logprobs, findLabel "no" logprobs with
  | some (yesIdx, yesLogprob), some (noIdx, noLogprob) =>
    if yesIdx < noIdx then 0.6 + logprobToConfidence E yesLogprob * 0.4
    else if noIdx < yesIdx then 0.4 - logprobToConfidence E noLogprob * 0.4
    else 0.5
  | some (_, yesLogprob), none => 0.6 + logprobToConfidence E yesLogprob * 0.4
  | none, some (_, noLogprob) => 0.4 - logprobToConfidence E noLogprob * 0.4
  | none, none => 0.5

/-! ### ScoreBlender (function positionBlend of st.ts) -/

/-- Function positionBlend of st.ts: blend the reciprocal of the fused rank
with the reranker score using rank-tiered weights. -/
def positionBlend (rrfRank : Nat) (rerankerScore : Rat) : Rat :=
  let rrfScore : Rat := 1 / (rrfRank : Rat)
  let retrieverWeight : Rat :=
    if rrfRank ≤ 3 then 0.75
    else if rrfRank ≤ 10 then 0.6
    else 0.4
  retrieverWeight * rrfScore + (1 - retrieverWeight) * rerankerScore

/-- The tiered retrieval weight exactly as the specification words it:
0.75 for ranks 1 to 3, 0.6 for ranks 4 to 10, 0.4 for ranks 11 and up. -/
def retrievalWeightSpec (rank : Nat) : Rat :=
  if 1 ≤ rank ∧ rank ≤ 3 then 0.75
  else if 4 ≤ rank ∧ rank ≤ 10 then 0.6
  else 0.4

/-! ### VectorRetriever, multi-query mode (function searchVector of st.ts) -/

/-- The distance-to-score transform of searchVector: 1 / (distance + 1). -/
def distScore (d : Rat) : Rat := 1 / (d + 1)

/-- The inner loop of searchVector over the nearest-neighbour rows
(document id and distance) of one query variant: keep a score only when it
beats the already stored one (get of an absent key is 0; a stored 0 also
reads back 0 through the falsy-or in the source, and stored scores are the
first branch values, which only ever grow). -/
def vectorAccRows (m : List (Nat × Rat)) : List (Nat × Rat) → List (Nat × Rat)
  | [] => m
  | r :: rest =>
    if (mapLookup m r.1).getD 0 < distScore r.2
    then vectorAccRows (mapSet m r.1 (distScore r.2)) rest
    else vectorAccRows m rest

/-- The outer loop of searchVector: one pass per query variant; a variant
whose embedding call failed (none) contributes nothing, exactly the
continue of the source. -/
def vectorScores (f : String → Option (List (Nat × Rat))) (queries : List String) :
    List (Nat × Rat) :=
  queries.foldl
    (fun m q =>
      match f q with
      | none => m
      | some rows => vectorAccRows m rows) []

/-- Every score contribution 1 / (distance + 1) that candidate id receives
across all query variants, in scan order. -/
def vecContribs (f : String → Option (List (Nat × Rat))) (queries : List String)
    (id : Nat) : List Rat :=
  (queries.map (fun q =>
    match f q with
    | none => []
    | some rows => ((rows.filter (fun r => r.1 == id)).map (fun r => distScore r.2)))).flatten

/-! ### Reranker transport (functions rerankSingleDoc and rerankWithLLM of
st.ts) -/

/-- Outcome of the generate call of rerankSingleDoc for one candidate: the
fetch threw, the status was not ok, or a response arrived whose logprobs
field may be absent.  The request is determined by the query and the
candidate document, so outcomes are keyed by the candidate id, the
granularity at which the source handles failures. -/
inductive FetchOutcome where
  | thrown
  | badStatus
  | ok (logprobs : Option (List LogProb))
deriving DecidableEq, Repr

/-- Function rerankSingleDoc of st.ts: both failure modes yield the
fallback score 5; a response is scored from its logprobs, an absent field
defaulting to the empty list. -/
def rerankSingleDoc (E : Rat → Rat) (ro : Nat → FetchOutcome) (doc : SearchResult) :
    Nat × Rat :=
  match ro doc.id with
  | .thrown => (doc.id, 5)
  | .badStatus => (doc.id, 5)
  | .ok lps => (doc.id, computeRerankScore E (lps.getD []))

/-- The score rerankSingleDoc produces for a candidate id. -/
def rerankScoreOf (E : Rat → Rat) (ro : Nat → FetchOutcome) (id : Nat) : Rat :=
  match ro id with
  | .thrown => 5
  | .badStatus => 5
  | .ok lps => computeRerankScore E (lps.getD [])

/-- Function rerankWithLLM of st.ts.  The source processes the documents
in sequential batches of width 5, awaiting all requests of a batch and
writing the batch results into the map in order; the resulting map is
therefore the single in-order fold written here. -/
def rerankWithLLM (E : Rat → Rat) (ro : Nat → FetchOutcome) (docs : List SearchResult) :
    List (Nat × Rat) :=
  docs.foldl (fun m doc => mapSet m (rerankSingleDoc E ro doc).1 (rerankSingleDoc E ro doc).2) []

/-- The reranker lookup of searchCombined, `get(id) || 0.5`: an absent
entry and a stored falsy 0 both read as the neutral 0.5; every other
stored value is used unchanged. -/
def lookupRerank (m : List (Nat × Rat)) (id : Nat) : Rat :=
  match mapLookup m id with
  | none => 0.5
  | some v => if v = 0 then 0.5 else v

/-! ### Orchestrator, combined mode (function searchCombined of st.ts) -/

/-- Descending comparison on fused entries: a may precede b when the score
of b does not exceed the score of a, the order produced by the stable sort
with comparator (a, b) => b.score - a.score. -/
def feDominates (a b : FusionEntry) : Prop := b.score ≤ a.score

instance : DecidableRel feDominates :=
  fun a b => inferInstanceAs (Decidable (b.score ≤ a.score))

instance : IsTotal FusionEntry feDominates := ⟨fun a b => le_total b.score a.score⟩

instance : IsTrans FusionEntry feDominates := ⟨fun _ _ _ h1 h2 => le_trans h2 h1⟩

/-- Descending comparison on final results. -/
def srDominates (a b : SearchResult) : Prop := b.score ≤ a.score

instance : DecidableRel srDominates :=
  fun a b => inferInstanceAs (Decidable (b.score ≤ a.score))

instance : IsTotal SearchResult srDominates := ⟨fun a b => le_total b.score a.score⟩

instance : IsTrans SearchResult srDominates := ⟨fun _ _ _ h1 h2 => le_trans h2 h1⟩

/-- The stable descending sort used by searchCombined, modelling the
observable result of Array.prototype.sort with the score comparator. -/
def sortFusionEntries (l : List FusionEntry) : List FusionEntry :=
  l.insertionSort feDominates

/-- The stable descending sort of the final blended results. -/
def sortSearchResults (l : List SearchResult) : List SearchResult :=
  l.insertionSort srDominates

/-- Map.values of the fusion map in insertion order. -/
def fusionValues (m : List (Nat × FusionEntry)) : List FusionEntry :=
  m.map (fun p => p.2)

/-- The weighted result sets searchCombined hands to rrfFusion: the
original query BM25 and vector sets at weight 2 and limit 50, then each
expansion variant BM25 set and each expansion variant vector set at weight
1 and limit 30. -/
def combinedResultSets (E : Rat → Rat) (db : String → Nat → Except Unit (List SearchResult))
    (vecS : String → Nat → List SearchResult)
    (original : String) (expanded : List String) : List (List SearchResult × Rat) :=
  [(searchBM25 E db original 50, 2), (vecS original 50, 2)]
    ++ expanded.map (fun q => (searchBM25 E db q 30, 1))
    ++ expanded.map (fun q => (vecS q 30, 1))

/-- The fused candidates of searchCombined, sorted descending by
accumulated RRF score and truncated to the top 30 handed to the
reranker. -/
def combinedSorted (E : Rat → Rat) (db : String → Nat → Except Unit (List SearchResult))
    (vecS : String → Nat → List SearchResult)
    (original : String) (expanded : List String) : List FusionEntry :=
  (sortFusionEntries (fusionValues (rrfFusion
    (combinedResultSets E db vecS original expanded)))).take 30

/-- The final mapping step of searchCombined: position blend of the fused
rank (1-based index in the sorted prefix) with the looked-up reranker
score. -/
def blendStage (sorted : List FusionEntry) (m : List (Nat × Rat)) : List SearchResult :=
  sorted.enum.map (fun p =>
    { p.2.doc with score := positionBlend (p.1 + 1) (lookupRerank m p.2.doc.id) })

/-- Function searchCombined of st.ts: expand the query, retrieve per
variant, fuse with weights 2 and 1, sort and keep the top 30, rerank them,
blend, re-sort by blended score and truncate to the requested count. -/
def searchCombined (E : Rat → Rat) (eo : ExpandOutcome)
    (db : String → Nat → Except Unit (List SearchResult))
    (vecS : String → Nat → List SearchResult) (ro : Nat → FetchOutcome)
    (query : String) (limit : Nat) : List SearchResult :=
  (sortSearchResults (blendStage
    (combinedSorted E db vecS ((expandQuery eo query).headD query) (expandQuery eo query).tail)
    (rerankWithLLM E ro
      ((combinedSorted E db vecS ((expandQuery eo query).headD query)
        (expandQuery eo query).tail).map (fun s => s.doc))))).take limit

/-- Concrete FTS oracle for witnesses: one indexed document with id 3. -/
def wDb : String → Nat → Except Unit (List SearchResult) := fun _ _ => Except.ok [mkDoc 3]

/-- Concrete vector oracle for witnesses: no vector hits. -/
def wVec : String → Nat → List SearchResult := fun _ _ => []

/-- The document of wDb after BM25 normalisation under the exponential
that is constantly 1. -/
def wDoc : SearchResult := ⟨3, "", "", "", normalizeBM25 (fun _ => 1) 0⟩

/-- The single fused entry the concrete scenario produces: weight 2 at
1-based rank 1 gives RRF score 2 / 61. -/
def wEntry : FusionEntry := ⟨wDoc, 2/61⟩

lemma mapLookup_nil {α : Type} (id : Nat) : mapLookup ([] : List (Nat × α)) id = none := rfl

lemma mapLookup_cons {α : Type} (k : Nat) (v : α) (rest : List (Nat × α)) (id : Nat) :
    mapLookup ((k, v) :: rest) id = if k = id then some v else mapLookup rest id := by
  by_cases h : k = id <;> simp [mapLookup, List.find?_cons, h]

lemma fusedScore_cons (k : Nat) (e : FusionEntry) (rest : List (Nat × FusionEntry)) (id : Nat) :
    fusedScore ((k, e) :: rest) id = if k = id then e.score else fusedScore rest id := by
  by_cases h : k = id <;> simp [fusedScore, mapLookup_cons, h]

lemma fusedScore_nil (id : Nat) : fusedScore [] id = 0 := rfl

lemma fusedScore_rrfInsert (acc : List (Nat × FusionEntry)) (doc : SearchResult)
    (s : Rat) (id : Nat) :
    fusedScore (rrfInsert acc doc s) id
      = fusedScore acc id + (if doc.id = id then s else 0) := by
  induction acc with
  | nil =>
    by_cases h : doc.id = id <;>
      simp [rrfInsert, fusedScore_cons, fusedScore_nil, h]
  | cons p rest ih =>
    obtain ⟨k, e⟩ := p
    by_cases hk : k = doc.id
    · simp only [rrfInsert, if_pos hk]
      by_cases h : doc.id = id
      · have hki : k = id := hk.trans h
        rw [fusedScore_cons, fusedScore_cons, if_pos hki, if_pos hki, if_pos h]
      · have hki : k ≠ id := fun hc => h (hk.symm.trans hc)
        rw [fusedScore_cons, fusedScore_cons, if_neg hki, if_neg hki, if_neg h, add_zero]
    · simp only [rrfInsert, if_neg hk]
      by_cases hki : k = id
      · have hd : doc.id ≠ id := fun hc => hk (hki.trans hc.symm)
        rw [fusedScore_cons, fusedScore_cons, if_pos hki, if_pos hki, if_neg hd, add_zero]
      · rw [fusedScore_cons, fusedScore_cons, if_neg hki, if_neg hki, ih]

lemma fusedScore_rrfInsertSet (acc : List (Nat × FusionEntry)) (w : Rat)
    (results : List SearchResult) (rank : Nat) (id : Nat) :
    fusedScore (rrfInsertSet acc w results rank) id
      = fusedScore acc id + setContribution w results id rank := by
  induction results generalizing acc rank with
  | nil => simp [rrfInsertSet, setContribution]
  | cons d ds ih =>
    simp only [rrfInsertSet, setContribution]
    rw [ih, fusedScore_rrfInsert]
    ring

/-- Shared fusion lemma: the fused score of any id is the sum over all
result sets of that set's RRF contribution for the id. -/
lemma fusedScore_rrfFusion (resultSets : List (List SearchResult × Rat)) (id : Nat) :
    fusedScore (rrfFusion resultSets) id
      = (resultSets.map (fun p => setContribution p.2 p.1 id 0)).sum := by
  have main : ∀ (sets : List (List SearchResult × Rat)) (acc : List (Nat × FusionEntry)),
      fusedScore (sets.foldl (fun acc p => rrfInsertSet acc p.2 p.1 0) acc) id
        = fusedScore acc id + (sets.map (fun p => setContribution p.2 p.1 id 0)).sum := by
    intro sets
    induction sets with
    | nil => simp
    | cons s rest ih =>
      intro acc
      simp only [List.foldl_cons, List.map_cons, List.sum_cons]
      rw [ih, fusedScore_rrfInsertSet]
      ring
  have h := main resultSets []
  simpa [fusedScore, mapLookup, rrfFusion] using h

/-- Rewrites a contribution as an explicit finite sum over the 1-based ranks
of the set, matching the formula weight / (r + 60). -/
lemma setContribution_eq_sum (w : Rat) (results : List SearchResult) (id : Nat) (rank : Nat) :
    setContribution w results id rank
      = ∑ i ∈ Finset.range results.length,
          (if (results.getD i default).id = id
            then w / (((i + rank : Nat) : Rat) + 1 + (RRF_K : Rat)) else 0) := by
  induction results generalizing rank with
  | nil => simp [setContribution]
  | cons d ds ih =>
    simp only [setContribution, List.length_cons]
    rw [Finset.sum_range_succ']
    simp only [List.getD_cons_succ, List.getD_cons_zero]
    rw [ih (rank + 1)]
    have : ∀ i : Nat, ((i + (rank + 1) : Nat) : Rat) = ((i + 1 + rank : Nat) : Rat) := by
      intro i; congr 1; omega
    rw [add_comm]
    congr 1
    · apply Finset.sum_congr rfl
      intro i _
      rw [this i]
    · norm_num

/-- C1.  For every non-empty list of (result set, weight) pairs given to
rrfFusion, the fused score of a candidate id equals the sum, over every
result set, of weight / (r + 60) taken at each 1-based rank r = i + 1 at
which the set holds that id. -/
theorem rrfFusion_score_additivity
    (resultSets : List (List SearchResult × Rat)) (id : Nat)
    (_hne : resultSets ≠ []) :
    fusedScore (rrfFusion resultSets) id
      = (resultSets.map (fun p =>
          ∑ i ∈ Finset.range p.1.length,
            (if (docAt p.1 i).id = id then p.2 / (((i : Rat) + 1) + 60) else 0))).sum := by
  clear _hne
  rw [fusedScore_rrfFusion]
  apply congrArg List.sum
  apply List.map_congr_left
  intro p _
  rw [setContribution_eq_sum]
  apply Finset.sum_congr rfl
  intro i _
  norm_num [RRF_K, docAt]

/-- Sanity anchor for C1: the example of the specification evaluates to
2/62 + 1/65 exactly. -/
lemma rrfFusion_example_value :
    fusedScore (rrfFusion rrfExampleSets) 7 = 2 / 62 + 1 / 65 := by
  norm_num [rrfExampleSets, rrfFusion, rrfInsertSet, rrfInsert, mkDoc, fusedScore_cons, RRF_K]

theorem rrfFusion_score_additivity_witness :
    rrfExampleSets ≠ []
      ∧ fusedScore (rrfFusion rrfExampleSets) 7
        = (rrfExampleSets.map (fun p =>
            ∑ i ∈ Finset.range p.1.length,
              (if (docAt p.1 i).id = 7 then p.2 / (((i : Rat) + 1) + 60) else 0))).sum :=
  ⟨by decide, rrfFusion_score_additivity rrfExampleSets 7 (by decide)⟩

/-- C6.  expandQuery always returns a non-empty list headed by the verbatim
input query, of length at most 4 (original plus at most 3 alternates), and
every failure mode (thrown transport error, non-success status, empty
body) returns exactly the singleton list of the original query. -/
theorem expandQuery_spec (o : ExpandOutcome) (q : String) :
    (expandQuery o q).head? = some q
    ∧ expandQuery o q ≠ []
    ∧ (expandQuery o q).length ≤ 4
    ∧ expandQuery .thrown q = [q]
    ∧ expandQuery .badStatus q = [q]
    ∧ expandQuery (.ok "") q = [q] := by
  refine ⟨?_, ?_, ?_, rfl, rfl, by simp [expandQuery]⟩
  · cases o with
    | thrown => rfl
    | badStatus => rfl
    | ok r => by_cases h : r = "" <;> simp [expandQuery, h]
  · cases o with
    | thrown => simp [expandQuery]
    | badStatus => simp [expandQuery]
    | ok r => by_cases h : r = "" <;> simp [expandQuery, h]
  · cases o with
    | thrown => simp [expandQuery]
    | badStatus => simp [expandQuery]
    | ok r =>
      by_cases h : r = ""
      · simp [expandQuery, h]
      · have hlen : (parseExpansion r).length ≤ 3 := by
          simp only [parseExpansion, List.length_take]
          exact min_le_left _ _
        simp only [expandQuery, if_neg h, List.length_cons]
        omega

/-- C7.  searchBM25 returns the empty list, and never an error, both when
the trimmed query is shorter than 2 characters and when the full-text
engine fails on the built query expression. -/
theorem searchBM25_error_handling (E : Rat → Rat)
    (db : String → Nat → Except Unit (List SearchResult)) (query : String) (limit : Nat) :
    (jsLength (jsTrim query) < 2 → searchBM25 E db query limit = [])
    ∧ (∀ fq, buildSearchQuery query = some fq → db fq limit = .error () →
        searchBM25 E db query limit = []) := by
  constructor
  · intro h
    have hb : buildSearchQuery query = none := by
      simp [buildSearchQuery, h]
    simp [searchBM25, hb]
  · intro fq h1 h2
    simp [searchBM25, h1, h2]

theorem searchBM25_error_handling_witness :
    searchBM25 (fun x => x) (fun _ _ => Except.ok []) "x" 5 = [] :=
  (searchBM25_error_handling (fun x => x) (fun _ _ => Except.ok []) "x" 5).1 (by decide)

/-- C8.  On raw BM25 scores following the engine convention (scores at most
0, more negative meaning better), normalizeBM25R is strictly monotone, the
better raw score mapping to the strictly larger normalised value, and its
output lies strictly between 0 and 1 for every input. -/
theorem normalizeBM25_monotone_and_bounded (s t u : Real)
    (hs : s ≤ 0) (_ht : t ≤ 0) (hts : t < s) :
    normalizeBM25R s < normalizeBM25R t
    ∧ 0 < normalizeBM25R u ∧ normalizeBM25R u < 1 := by
  have hexp : ∀ x : Real, 0 < 1 + Real.exp x := fun x => by
    have := Real.exp_pos x
    linarith
  refine ⟨?_, ?_, ?_⟩
  · have habs : |s| < |t| := by
      rw [abs_of_nonpos hs, abs_of_nonpos (le_of_lt (lt_of_lt_of_le hts hs))]
      linarith
    have harg : -(|s| - 5) / 3 > -(|t| - 5) / 3 := by linarith
    have hlt : Real.exp (-(|t| - 5) / 3) < Real.exp (-(|s| - 5) / 3) :=
      Real.exp_lt_exp.mpr harg
    unfold normalizeBM25R
    apply div_lt_div_of_pos_left one_pos (hexp _)
    linarith
  · exact div_pos one_pos (hexp _)
  · rw [normalizeBM25R, div_lt_one (hexp _)]
    have := Real.exp_pos (-(|u| - 5) / 3)
    linarith

theorem normalizeBM25_monotone_and_bounded_witness :
    normalizeBM25R (-1) < normalizeBM25R (-2)
    ∧ 0 < normalizeBM25R 0 ∧ normalizeBM25R 0 < 1 :=
  normalizeBM25_monotone_and_bounded (-1) (-2) 0 (by norm_num) (by norm_num) (by norm_num)

lemma logprobToConfidence_bounds (E : Rat → Rat) (lp : Rat) :
    0 ≤ logprobToConfidence E lp ∧ logprobToConfidence E lp ≤ 1 :=
  ⟨le_min (by norm_num) (le_max_left 0 (E lp)), min_le_left 1 _⟩

/-- C3.  The earlier of the first token containing yes and the first
containing no decides the branch of computeRerankScore; the yes branch is
0.6 + 0.4 times the clamped confidence and always at least 0.6, the no
branch is 0.4 - 0.4 times the clamped confidence and always at most 0.4,
and when neither label occurs the score is exactly 0.5; the confidence is
E of the logprob clamped to the unit interval, for every exponential E. -/
theorem computeRerankScore_spec (E : Rat → Rat) (lps : List LogProb) :
    (∀ yi yl, findLabel "yes" lps = some (yi, yl) →
      (findLabel "no" lps = none
        ∨ ∃ ni nl, findLabel "no" lps = some (ni, nl) ∧ yi < ni) →
      computeRerankScore E lps = 0.6 + logprobToConfidence E yl * 0.4
        ∧ 0.6 ≤ computeRerankScore E lps)
    ∧ (∀ ni nl, findLabel "no" lps = some (ni, nl) →
      (findLabel "yes" lps = none
        ∨ ∃ yi yl, findLabel "yes" lps = some (yi, yl) ∧ ni < yi) →
      computeRerankScore E lps = 0.4 - logprobToConfidence E nl * 0.4
        ∧ computeRerankScore E lps ≤ 0.4)
    ∧ (findLabel "yes" lps = none → findLabel "no" lps = none →
      computeRerankScore E lps = 0.5)
    ∧ (∀ lp, 0 ≤ logprobToConfidence E lp ∧ logprobToConfidence E lp ≤ 1) := by
  refine ⟨?_, ?_, ?_, logprobToConfidence_bounds E⟩
  · intro yi yl hy hno
    have hval : computeRerankScore E lps = 0.6 + logprobToConfidence E yl * 0.4 := by
      rcases hno with hn | ⟨ni, nl, hn, hlt⟩
      · simp [computeRerankScore, hy, hn]
      · simp [computeRerankScore, hy, hn, hlt]
    refine ⟨hval, ?_⟩
    rw [hval]
    have := (logprobToConfidence_bounds E yl).1
    nlinarith
  · intro ni nl hn hyes
    have hval : computeRerankScore E lps = 0.4 - logprobToConfidence E nl * 0.4 := by
      rcases hyes with hy | ⟨yi, yl, hy, hlt⟩
      · simp [computeRerankScore, hy, hn]
      · have hnlt : ¬yi < ni := by omega
        simp [computeRerankScore, hy, hn, hnlt, hlt]
    refine ⟨hval, ?_⟩
    rw [hval]
    have := (logprobToConfidence_bounds E nl).1
    nlinarith
  · intro hy hn
    simp [computeRerankScore, hy, hn]

theorem computeRerankScore_spec_witness :
    computeRerankScore (fun _ => 1) [⟨"Yes", 0⟩] = 0.6 + logprobToConfidence (fun _ => 1) 0 * 0.4
    ∧ 0.6 ≤ computeRerankScore (fun _ => 1) [⟨"Yes", 0⟩] :=
  (computeRerankScore_spec (fun _ => 1) [⟨"Yes", 0⟩]).1 0 0 (by decide) (Or.inl (by decide))

/-- C4.  For every rank from 1 to 30 and every reranker confidence, the
blended score is retrievalWeight times the reciprocal rank plus the
complementary weight times the confidence, with the tiered weights of the
specification; rank 1 at confidence 1 blends to exactly 1, and rank 15 at
confidence 0 blends to 0.4 times 1/15. -/
theorem positionBlend_spec (rank : Nat) (conf : Rat) (h1 : 1 ≤ rank) (_h30 : rank ≤ 30) :
    positionBlend rank conf
      = retrievalWeightSpec rank * (1 / (rank : Rat)) + (1 - retrievalWeightSpec rank) * conf
    ∧ positionBlend 1 1 = 1
    ∧ positionBlend 15 0 = 0.4 * (1 / 15) := by
  refine ⟨?_, by norm_num [positionBlend], by norm_num [positionBlend]⟩
  by_cases h3 : rank ≤ 3
  · have hc : 1 ≤ rank ∧ rank ≤ 3 := ⟨h1, h3⟩
    simp [positionBlend, retrievalWeightSpec, h3, hc]
  · by_cases h10 : rank ≤ 10
    · have hc1 : ¬(1 ≤ rank ∧ rank ≤ 3) := fun hc => h3 hc.2
      have hc2 : 4 ≤ rank ∧ rank ≤ 10 := ⟨by omega, h10⟩
      simp [positionBlend, retrievalWeightSpec, h3, h10, hc1, hc2]
    · have hc1 : ¬(1 ≤ rank ∧ rank ≤ 3) := fun hc => h3 hc.2
      have hc2 : ¬(4 ≤ rank ∧ rank ≤ 10) := fun hc => h10 hc.2
      simp [positionBlend, retrievalWeightSpec, h3, h10, hc1, hc2]

theorem positionBlend_spec_witness :
    positionBlend 5 (1/2)
      = retrievalWeightSpec 5 * (1 / (5 : Rat)) + (1 - retrievalWeightSpec 5) * (1/2)
    ∧ positionBlend 1 1 = 1
    ∧ positionBlend 15 0 = 0.4 * (1 / 15) :=
  positionBlend_spec 5 (1/2) (by norm_num) (by norm_num)

lemma mapLookup_mapSet {α : Type} (m : List (Nat × α)) (id j : Nat) (v : α) :
    mapLookup (mapSet m id v) j = if id = j then some v else mapLookup m j := by
  induction m with
  | nil => by_cases h : id = j <;> simp [mapSet, mapLookup_cons, mapLookup_nil, h]
  | cons p rest ih =>
    obtain ⟨k, w⟩ := p
    by_cases hk : k = id
    · simp only [mapSet, if_pos hk]
      by_cases hj : id = j
      · rw [mapLookup_cons, if_pos hj, if_pos hj]
      · have hkj : k ≠ j := fun hc => hj (hk ▸ hc)
        rw [mapLookup_cons, if_neg hj, if_neg hj, mapLookup_cons, if_neg hkj]
    · simp only [mapSet, if_neg hk]
      by_cases hkj : k = j
      · have hj : id ≠ j := fun hc => hk (hkj.symm ▸ hc.symm ▸ rfl)
        rw [mapLookup_cons, if_pos hkj, if_neg hj, mapLookup_cons, if_pos hkj]
      · rw [mapLookup_cons, if_neg hkj, ih, mapLookup_cons, if_neg hkj]

lemma vectorAccRows_lookup (m : List (Nat × Rat)) (rows : List (Nat × Rat)) (id : Nat) :
    (mapLookup (vectorAccRows m rows) id).getD 0
      = ((rows.filter (fun r => r.1 == id)).map (fun r => distScore r.2)).foldl max
          ((mapLookup m id).getD 0) := by
  induction rows generalizing m with
  | nil => simp [vectorAccRows]
  | cons r rest ih =>
    obtain ⟨rid, rdist⟩ := r
    by_cases hid : rid = id
    · subst hid
      simp only [vectorAccRows, List.filter_cons, beq_self_eq_true, if_pos, List.map_cons,
        List.foldl_cons]
      by_cases hlt : (mapLookup m rid).getD 0 < distScore rdist
      · rw [if_pos hlt, ih, mapLookup_mapSet, if_pos rfl]
        simp only [Option.getD_some]
        rw [max_eq_right (le_of_lt hlt)]
      · rw [if_neg hlt, ih, max_eq_left (le_of_not_lt hlt)]
    · have hbeq : (rid == id) = false := beq_false_of_ne hid
      simp only [vectorAccRows, List.filter_cons, hbeq, Bool.false_eq_true, if_neg,
        if_false]
      by_cases hlt : (mapLookup m rid).getD 0 < distScore rdist
      · rw [if_pos hlt, ih, mapLookup_mapSet, if_neg hid]
      · rw [if_neg hlt, ih]

/-- C9.  In multi-query vector search the retained score of every candidate
is the maximum over all query variants of 1 / (distance + 1), never a sum;
the transform is strictly decreasing in distance, lands in the unit
interval excluding 0 for non-negative distances, and maps distance 0 to
exactly 1. -/
theorem searchVector_max_score_spec (f : String → Option (List (Nat × Rat)))
    (queries : List String) (id : Nat) (d d1 d2 : Rat)
    (hd : 0 ≤ d) (hd1 : 0 ≤ d1) (h12 : d1 < d2) :
    (mapLookup (vectorScores f queries) id).getD 0
      = (vecContribs f queries id).foldl max 0
    ∧ distScore d2 < distScore d1
    ∧ 0 < distScore d ∧ distScore d ≤ 1
    ∧ distScore 0 = 1 := by
  refine ⟨?_, ?_, ?_, ?_, by norm_num [distScore]⟩
  · have main : ∀ (qs : List String) (m : List (Nat × Rat)),
        (mapLookup (qs.foldl
          (fun m q =>
            match f q with
            | none => m
            | some rows => vectorAccRows m rows) m) id).getD 0
          = ((qs.map (fun q =>
              match f q with
              | none => []
              | some rows => ((rows.filter (fun r => r.1 == id)).map
                  (fun r => distScore r.2)))).flatten).foldl max ((mapLookup m id).getD 0) := by
      intro qs
      induction qs with
      | nil => intro m; simp
      | cons q rest ihq =>
        intro m
        simp only [List.foldl_cons, List.map_cons, List.flatten_cons, List.foldl_append]
        cases hfq : f q with
        | none => rw [ihq]; simp
        | some rows => rw [ihq, vectorAccRows_lookup]
    have h := main queries []
    simpa [vectorScores, vecContribs, mapLookup_nil] using h
  · have h1 : (0 : Rat) < d1 + 1 := by linarith
    have h2 : d1 + 1 < d2 + 1 := by linarith
    exact one_div_lt_one_div_of_lt h1 h2
  · exact div_pos one_pos (by linarith)
  · rw [distScore, div_le_one (by linarith)]
    linarith

lemma rerankSingleDoc_eq (E : Rat → Rat) (ro : Nat → FetchOutcome) (doc : SearchResult) :
    rerankSingleDoc E ro doc = (doc.id, rerankScoreOf E ro doc.id) := by
  cases h : ro doc.id <;> simp [rerankSingleDoc, rerankScoreOf, h]

lemma rerankWithLLM_lookup_of_not_mem (E : Rat → Rat) (ro : Nat → FetchOutcome)
    (docs : List SearchResult) (m : List (Nat × Rat)) (id : Nat)
    (h : id ∉ docs.map (fun d => d.id)) :
    mapLookup (docs.foldl
      (fun m doc => mapSet m (rerankSingleDoc E ro doc).1 (rerankSingleDoc E ro doc).2) m) id
      = mapLookup m id := by
  induction docs generalizing m with
  | nil => rfl
  | cons d ds ih =>
    simp only [List.map_cons, List.mem_cons, not_or] at h
    simp only [List.foldl_cons]
    rw [ih _ h.2, rerankSingleDoc_eq, mapLookup_mapSet,
      if_neg (fun hc => h.1 hc.symm)]

lemma rerankWithLLM_lookup (E : Rat → Rat) (ro : Nat → FetchOutcome)
    (docs : List SearchResult) (id : Nat)
    (h : id ∈ docs.map (fun d => d.id)) :
    mapLookup (rerankWithLLM E ro docs) id = some (rerankScoreOf E ro id) := by
  have main : ∀ (ds : List SearchResult) (m : List (Nat × Rat)),
      id ∈ ds.map (fun d => d.id) →
      mapLookup (ds.foldl
        (fun m doc => mapSet m (rerankSingleDoc E ro doc).1 (rerankSingleDoc E ro doc).2) m) id
        = some (rerankScoreOf E ro id) := by
    intro ds
    induction ds with
    | nil => intro m hm; simp at hm
    | cons d rest ih =>
      intro m hm
      simp only [List.foldl_cons]
      by_cases hrest : id ∈ rest.map (fun d => d.id)
      · exact ih _ hrest
      · have hd : d.id = id := by
          simp only [List.map_cons, List.mem_cons] at hm
          tauto
        rw [rerankWithLLM_lookup_of_not_mem E ro rest _ id hrest,
          rerankSingleDoc_eq, mapLookup_mapSet, if_pos hd, hd]
  exact main docs [] h

/-- C2 amended.  A thrown transport error or a non-success status for a
single candidate yields the fallback result (id, 5); the batch is not
aborted (every document of the batch still receives a score in the map);
the fallback 5 lies outside the normal unit range; and the blend lookup of
searchCombined uses the stored 5 unchanged, not the neutral 0.5. -/
theorem rerank_failure_fallback_spec (E : Rat → Rat) (ro : Nat → FetchOutcome)
    (docs : List SearchResult) (doc : SearchResult)
    (hmem : doc ∈ docs) (hfail : ro doc.id = .thrown ∨ ro doc.id = .badStatus) :
    rerankSingleDoc E ro doc = (doc.id, 5)
    ∧ (∀ d ∈ docs, ∃ v, mapLookup (rerankWithLLM E ro docs) d.id = some v)
    ∧ mapLookup (rerankWithLLM E ro docs) doc.id = some 5
    ∧ lookupRerank (rerankWithLLM E ro docs) doc.id = 5
    ∧ ((5 : Rat) < 0 ∨ 1 < (5 : Rat)) := by
  have hscore : rerankScoreOf E ro doc.id = 5 := by
    rcases hfail with h | h <;> simp [rerankScoreOf, h]
  have hlook : mapLookup (rerankWithLLM E ro docs) doc.id = some 5 := by
    rw [rerankWithLLM_lookup E ro docs doc.id
      (List.mem_map_of_mem (fun d => d.id) hmem), hscore]
  refine ⟨?_, ?_, hlook, ?_, Or.inr (by norm_num)⟩
  · rw [rerankSingleDoc_eq, hscore]
  · intro d hd
    exact ⟨rerankScoreOf E ro d.id,
      rerankWithLLM_lookup E ro docs d.id (List.mem_map_of_mem (fun d => d.id) hd)⟩
  · rw [lookupRerank, hlook]
    norm_num

theorem rerank_failure_fallback_spec_witness :
    lookupRerank (rerankWithLLM (fun _ => 1) (fun _ => FetchOutcome.badStatus) [mkDoc 3]) 3 = 5 :=
  (rerank_failure_fallback_spec (fun _ => 1) (fun _ => FetchOutcome.badStatus)
    [mkDoc 3] (mkDoc 3) (by decide) (Or.inr rfl)).2.2.2.1

theorem searchVector_max_score_spec_witness :
    (mapLookup (vectorScores (fun _ => some [(1, 0)]) ["a"]) 1).getD 0
      = (vecContribs (fun _ => some [(1, 0)]) ["a"] 1).foldl max 0
    ∧ distScore 1 < distScore 0
    ∧ 0 < distScore 2 ∧ distScore 2 ≤ 1
    ∧ distScore 0 = 1 :=
  searchVector_max_score_spec (fun _ => some [(1, 0)]) ["a"] 1 2 0 1
    (by norm_num) (by norm_num) (by norm_num)

lemma setContribution_smul (w : Rat) (l : List SearchResult) (id : Nat) (rank : Nat) :
    setContribution w l id rank = w * setContribution 1 l id rank := by
  induction l generalizing rank with
  | nil => simp [setContribution]
  | cons d ds ih =>
    simp only [setContribution]
    rw [ih (rank + 1), mul_add]
    congr 1
    by_cases h : d.id = id
    · simp only [if_pos h]
      ring
    · simp [h]

/-- C5.  In searchCombined the original query BM25 and vector sets are
fused at weight 2 and every expansion variant set at weight 1 (the fused
score of each id is the corresponding weighted contribution sum); the
fused candidates handed to the reranker are sorted descending by
accumulated RRF score, are at most 30, dominate every candidate dropped by
the truncation, and all come from the fusion map; and the final output is
sorted descending by blended score, holds at most the requested count, and
consists of blended entries of the reranked prefix. -/
theorem searchCombined_pipeline_spec (E : Rat → Rat) (eo : ExpandOutcome)
    (db : String → Nat → Except Unit (List SearchResult))
    (vecS : String → Nat → List SearchResult) (ro : Nat → FetchOutcome)
    (query : String) (limit : Nat) :
    (∀ id,
      fusedScore (rrfFusion (combinedResultSets E db vecS
          ((expandQuery eo query).headD query) (expandQuery eo query).tail)) id
        = 2 * setContribution 1 (searchBM25 E db ((expandQuery eo query).headD query) 50) id 0
          + 2 * setContribution 1 (vecS ((expandQuery eo query).headD query) 50) id 0
          + ((expandQuery eo query).tail.map
              (fun q => setContribution 1 (searchBM25 E db q 30) id 0)).sum
          + ((expandQuery eo query).tail.map
              (fun q => setContribution 1 (vecS q 30) id 0)).sum)
    ∧ List.Sorted feDominates (combinedSorted E db vecS
        ((expandQuery eo query).headD query) (expandQuery eo query).tail)
    ∧ (combinedSorted E db vecS
        ((expandQuery eo query).headD query) (expandQuery eo query).tail).length ≤ 30
    ∧ (∀ x ∈ combinedSorted E db vecS
          ((expandQuery eo query).headD query) (expandQuery eo query).tail,
        ∀ y ∈ (sortFusionEntries (fusionValues (rrfFusion (combinedResultSets E db vecS
          ((expandQuery eo query).headD query) (expandQuery eo query).tail)))).drop 30,
        y.score ≤ x.score)
    ∧ (∀ x ∈ combinedSorted E db vecS
          ((expandQuery eo query).headD query) (expandQuery eo query).tail,
        x ∈ fusionValues (rrfFusion (combinedResultSets E db vecS
          ((expandQuery eo query).headD query) (expandQuery eo query).tail)))
    ∧ List.Sorted srDominates (searchCombined E eo db vecS ro query limit)
    ∧ (searchCombined E eo db vecS ro query limit).length ≤ limit
    ∧ (∀ r ∈ searchCombined E eo db vecS ro query limit,
        r ∈ blendStage
          (combinedSorted E db vecS
            ((expandQuery eo query).headD query) (expandQuery eo query).tail)
          (rerankWithLLM E ro
            ((combinedSorted E db vecS ((expandQuery eo query).headD query)
              (expandQuery eo query).tail).map (fun s => s.doc)))) := by
  refine ⟨?_, ?_, ?_, ?_, ?_, ?_, ?_, ?_⟩
  · intro id
    rw [fusedScore_rrfFusion]
    simp only [combinedResultSets, List.map_append, List.sum_append, List.map_cons,
      List.map_nil, List.sum_cons, List.sum_nil, List.map_map, Function.comp_def]
    rw [setContribution_smul 2 (searchBM25 E db ((expandQuery eo query).headD query) 50),
      setContribution_smul 2 (vecS ((expandQuery eo query).headD query) 50)]
    ring
  · exact List.Pairwise.sublist (List.take_sublist 30 _)
      (List.sorted_insertionSort feDominates _)
  · simp only [combinedSorted, List.length_take]
    exact min_le_left _ _
  · intro x hx y hy
    exact List.Sorted.rel_of_mem_take_of_mem_drop
      (List.sorted_insertionSort feDominates _) hx hy
  · intro x hx
    have hx2 : x ∈ sortFusionEntries (fusionValues (rrfFusion (combinedResultSets E db vecS
        ((expandQuery eo query).headD query) (expandQuery eo query).tail))) :=
      List.mem_of_mem_take hx
    exact (List.perm_insertionSort feDominates _).mem_iff.mp hx2
  · exact List.Pairwise.sublist (List.take_sublist limit _)
      (List.sorted_insertionSort srDominates _)
  · simp only [searchCombined, List.length_take]
    exact min_le_left _ _
  · intro r hr
    have hr2 : r ∈ sortSearchResults (blendStage
        (combinedSorted E db vecS ((expandQuery eo query).headD query)
          (expandQuery eo query).tail)
        (rerankWithLLM E ro
          ((combinedSorted E db vecS ((expandQuery eo query).headD query)
            (expandQuery eo query).tail).map (fun s => s.doc)))) :=
      List.mem_of_mem_take hr
    exact (List.perm_insertionSort srDominates _).mem_iff.mp hr2

lemma buildSearchQuery_hi : buildSearchQuery "hi" = some "hi" := by decide

lemma searchBM25_concrete : searchBM25 (fun _ => 1) wDb "hi" 50 = [wDoc] := by
  simp only [searchBM25, buildSearchQuery_hi, wDb]
  simp [mkDoc, wDoc]

lemma combinedSorted_concrete :
    combinedSorted (fun _ => 1) wDb wVec "hi" [] = [wEntry] := by
  have h1 : combinedResultSets (fun _ => 1) wDb wVec "hi" []
      = [([wDoc], 2), ([], 2)] := by
    simp [combinedResultSets, searchBM25_concrete, wVec]
  have h2 : rrfFusion [([wDoc], 2), ([], 2)] = [(3, wEntry)] := by
    simp only [rrfFusion, List.foldl_cons, List.foldl_nil, rrfInsertSet, rrfInsert]
    norm_num [wDoc, wEntry, RRF_K]
  simp [combinedSorted, h1, h2, fusionValues, sortFusionEntries]
  norm_num [wEntry, wDoc, mkDoc, RRF_K]

theorem searchCombined_pipeline_spec_witness :
    wEntry ∈ fusionValues (rrfFusion (combinedResultSets (fun _ => 1) wDb wVec
      ((expandQuery ExpandOutcome.thrown "hi").headD "hi")
      (expandQuery ExpandOutcome.thrown "hi").tail)) :=
  (searchCombined_pipeline_spec (fun _ => 1) ExpandOutcome.thrown wDb wVec
    (fun _ => FetchOutcome.ok none) "hi" 5).2.2.2.2.1 wEntry
    (by
      show wEntry ∈ combinedSorted (fun _ => 1) wDb wVec "hi" []
      rw [combinedSorted_concrete]
      exact List.mem_singleton_self wEntry)

/-- C2 counterexample.  At a concrete input where every rerank request
fails, the failed candidate at fused rank 1 receives blended score
0.75 * 1 + 0.25 * 5 = 2 in searchCombined, whereas a neutral reranker
confidence of 0.5 would blend to 7/8: the fallback is not treated as
neutral in the final blend. -/
theorem rerank_failure_blend_counterexample :
    (searchCombined (fun _ => 1) ExpandOutcome.thrown wDb wVec
        (fun _ => FetchOutcome.badStatus) "hi" 5).map (fun r => r.score) = [2]
    ∧ positionBlend 1 (1/2) = 7/8
    ∧ (2 : Rat) ≠ 7/8 := by
  refine ⟨?_, by norm_num [positionBlend], by norm_num⟩
  show ((sortSearchResults (blendStage (combinedSorted (fun _ => 1) wDb wVec "hi" [])
      (rerankWithLLM (fun _ => 1) (fun _ => FetchOutcome.badStatus)
        ((combinedSorted (fun _ => 1) wDb wVec "hi" []).map (fun s => s.doc))))).take 5).map
      (fun r => r.score) = [2]
  rw [combinedSorted_concrete]
  have hrr : rerankWithLLM (fun _ => 1) (fun _ => FetchOutcome.badStatus) [wEntry.doc]
      = [(3, 5)] := by
    simp [rerankWithLLM, rerankSingleDoc, mapSet, wEntry, wDoc]
  have hlook : lookupRerank [(3, 5)] 3 = 5 := by
    norm_num [lookupRerank, mapLookup_cons]
  simp only [List.map_cons, List.map_nil, hrr, blendStage, List.enum_cons, List.enum_nil,
    List.enumFrom_nil, hlook, sortSearchResults, List.insertionSort, List.orderedInsert,
    List.take]
  norm_num [positionBlend, wEntry, wDoc, hlook]

/-- C10.  The blend lookup of searchCombined substitutes the neutral 0.5
both for an absent entry and for a stored falsy 0 (so a maximally
confident no, which computeRerankScore maps to exactly 0, blends exactly
like an unjudged candidate), while every nonzero stored value, the
out-of-range failure sentinel 5 included, is used unchanged. -/
theorem blend_lookup_falsy_spec (m : List (Nat × Rat)) (id : Nat) (v : Rat)
    (sorted : List FusionEntry) (E : Rat → Rat) (lp : Rat) (i : Nat) :
    (mapLookup m id = some 0 → lookupRerank m id = 0.5)
    ∧ (mapLookup m id = none → lookupRerank m id = 0.5)
    ∧ (mapLookup m id = some v → v ≠ 0 → lookupRerank m id = v)
    ∧ (1 ≤ E lp → computeRerankScore E [⟨"no", lp⟩] = 0)
    ∧ blendStage sorted [(i, 0)] = blendStage sorted [] := by
  refine ⟨?_, ?_, ?_, ?_, ?_⟩
  · intro h
    simp [lookupRerank, h]
  · intro h
    simp [lookupRerank, h]
  · intro h hv
    simp [lookupRerank, h, hv]
  · intro h
    have hyes : findLabel "yes" [⟨"no", lp⟩] = none := rfl
    have hno : findLabel "no" [⟨"no", lp⟩] = some (0, lp) := rfl
    simp only [computeRerankScore, hyes, hno]
    have h0 : (0 : Rat) ≤ E lp := le_trans zero_le_one h
    rw [logprobToConfidence, max_eq_right h0, min_eq_left h]
    norm_num
  · have hsame : ∀ x, lookupRerank [(i, (0 : Rat))] x = lookupRerank [] x := by
      intro x
      by_cases h : i = x <;> simp [lookupRerank, mapLookup_cons, mapLookup_nil, h]
    simp [blendStage, hsame]

theorem blend_lookup_falsy_spec_witness :
    lookupRerank [(3, (5 : Rat))] 3 = 5 :=
  (blend_lookup_falsy_spec [(3, (5 : Rat))] 3 5 [] (fun _ => 1) 0 0).2.2.1
    (by norm_num [mapLookup_cons]) (by norm_num)

end ST
